import Mathlib

/-!
Shallow embedding of the `puruspe` special-function library (`src/lib.rs`)
over the real numbers, together with theorems settling the specification
claims.  Floating-point `f64` values are modelled as real numbers; the
transcendental primitives `exp`, `ln`, `sqrt`, `sin` of the source are
modelled by `Real.exp`, `Real.log`, `Real.sqrt`, `Real.sin`.  The Rust
`assert!` at the entry of `gammp`/`gammq` is modelled by returning
`Except.error` with the source's message instead of a value.  The two
source loops that iterate until a floating-point convergence test fires
(`gser`, `gcf`) are modelled with an explicit iteration budget; no claim
depends on the value they converge to.
-/

namespace Puruspe

noncomputable section

open Real

/-- `f64::EPSILON` = 2⁻⁵² (source line 7: `const EPS: f64 = EPSILON`). -/
def EPS : ℝ := 2 ^ (-52 : ℤ)

/-- `FPMIN = f64::MIN_POSITIVE / EPS` (source line 8); `MIN_POSITIVE` = 2⁻¹⁰²². -/
def FPMIN : ℝ := 2 ^ (-1022 : ℤ) / EPS

/-- `const G: f64 = 5f64` (source line 9), the Lanczos `g` parameter. -/
def G : ℝ := 5

/-- `const ASWITCH: usize = 100` (source line 11), the quadrature switch. -/
def ASWITCH : ℕ := 100

/-- The 18 Gauss-Legendre abscissas `Y` (source lines 13-20). -/
def Ytable : List ℝ :=
  [0.0021695375159141994, 0.011413521097787704, 0.027972308950302116,
   0.051727015600492421, 0.082502225484340941, 0.12007019910960293,
   0.16415283300752470, 0.21442376986779355, 0.27051082840644336,
   0.33199876341447887, 0.39843234186401943, 0.46931971407375483,
   0.54413605556657973, 0.62232745288031077, 0.70331500465597174,
   0.78649910768313447, 0.87126389619061517, 0.95698180152629142]

/-- The 18 Gauss-Legendre weights `W` (source lines 21-28). -/
def Wtable : List ℝ :=
  [0.0055657196642445571, 0.012915947284065419, 0.020181515297735382,
   0.027298621498568734, 0.034213810770299537, 0.040875750923643261,
   0.047235083490265582, 0.053244713977759692, 0.058860144245324798,
   0.064039797355015485, 0.068745323835736408, 0.072941885005653087,
   0.076598410645870640, 0.079687828912071670, 0.082187266704339706,
   0.084078218979661945, 0.085346685739338721, 0.085983275670394821]

/-- `Y[j]` as a function of the index. -/
def Yq (j : ℕ) : ℝ := Ytable.getD j 0

/-- `W[j]` as a function of the index. -/
def Wq (j : ℕ) : ℝ := Wtable.getD j 0

/-- The Lanczos (g=5, n=7) coefficient table `LG5N7` (source lines 158-166). -/
def LG5N7 : List ℝ :=
  [1.000000000189712,
   76.18009172948503,
   -86.50532032927205,
   24.01409824118972,
   -1.2317395783752254,
   0.0012086577526594748,
   -0.00000539702438713199]

/-- `ln_gamma_approx` (source lines 169-178): Lanczos approximation of ln Γ.
The source shadows `z` with `z - 1`; here the shifted value is `z1`.  The
accumulation loop `for i in 1 .. N` (`N = 7`) is the fold over `[1,…,6]`. -/
def ln_gamma_approx (z : ℝ) : ℝ :=
  let z1 := z - 1
  let base := z1 + G + 0.5
  let s := (List.range' 1 6).foldl (fun acc i => acc + LG5N7.getD i 0 / (z1 + i)) 0
    + LG5N7.getD 0 0
  Real.log (Real.sqrt (2 * π)) + Real.log s - base + Real.log base * (z1 + 0.5)

/-- Iteration budget modelling the unbounded `loop` of `gser` and the
unbounded `for i in 1 ..` of `gcf`.  The source iterates until a
floating-point convergence test fires; the budget only truncates that
search and no claim depends on the converged value. -/
def iterBudget : ℕ := 1000000

/-- The `loop` body of `gser` (source lines 73-80): state `(ap, del, sum)`,
one step does `ap += 1; del *= x/ap; sum += del` and stops when
`|del| < |sum| * EPS`. -/
def gserLoop (a x : ℝ) : ℕ → ℝ → ℝ → ℝ → ℝ
  | 0, _, _, sum => sum
  | fuel + 1, ap, del, sum =>
    let ap' := ap + 1
    let del' := del * (x / ap')
    let sum' := sum + del'
    if |del'| < |sum'| * EPS then sum'
    else gserLoop a x fuel ap' del' sum'

/-- `gser` (source lines 68-81): series expansion for P(a,x).
Initial state `ap = a`, `del = sum = 1/a`; the converged sum is scaled by
`exp(-x + a*ln x - gln)`. -/
def gser (a x : ℝ) : ℝ :=
  gserLoop a x iterBudget a (1 / a) (1 / a)
    * Real.exp (-x + a * Real.log x - ln_gamma_approx a)

/-- The `for i in 1 ..` body of `gcf` (source lines 90-107): state
`(i, b, c, d, h)`, with the modified-Lentz updates and `FPMIN` clamps,
stopping when `|del - 1| < EPS`. -/
def gcfLoop (a : ℝ) : ℕ → ℕ → ℝ → ℝ → ℝ → ℝ → ℝ
  | 0, _, _, _, _, h => h
  | fuel + 1, i, b, c, d, h =>
    let an := -(i : ℝ) * ((i : ℝ) - a)
    let b' := b + 2
    let d1 := an * d + b'
    let d2 := if |d1| < FPMIN then FPMIN else d1
    let c1 := b' + an / c
    let c2 := if |c1| < FPMIN then FPMIN else c1
    let d3 := 1 / d2
    let del := d3 * c2
    let h' := h * del
    if |del - 1| < EPS then h'
    else gcfLoop a fuel (i + 1) b' c2 d3 h'

/-- `gcf` (source lines 83-109): continued-fraction (modified Lentz)
evaluation of Q(a,x).  Initial state `b = x + 1 - a`, `c = 1/FPMIN`,
`d = h = 1/b`; the converged product `h` is scaled by
`exp(-x + a*ln x - gln)`. -/
def gcf (a x : ℝ) : ℝ :=
  Real.exp (-x + a * Real.log x - ln_gamma_approx a)
    * gcfLoop a iterBudget 1 (x + 1 - a) (1 / FPMIN) (1 / (x + 1 - a)) (1 / (x + 1 - a))

/-- The mode selector `IncGamma` (source lines 113-116). -/
inductive IncGamma : Type
  | P : IncGamma
  | Q : IncGamma

/-- The integration bound `xu` of `gammpapprox` (source lines 124-128). -/
def quadXu (a x : ℝ) : ℝ :=
  let a1 := a - 1
  let sqrta1 := Real.sqrt a1
  if a1 < x then max (a1 + 11.5 * sqrta1) (x + 6 * sqrta1)
  else max 0 (min (a1 - 7.5 * sqrta1) (x - 5 * sqrta1))

/-- The quadrature accumulation of `gammpapprox` (source lines 129-134):
`sum += W[j] * exp(-(t - a1) + a1*(ln t - lna1))` with
`t = x + (xu - x)*Y[j]`, over the 18 nodes. -/
def quadSum (a x : ℝ) : ℝ :=
  let a1 := a - 1
  let lna1 := Real.log a1
  ∑ j in Finset.range 18,
    Wq j * Real.exp (-(x + (quadXu a x - x) * Yq j - a1)
      + a1 * (Real.log (x + (quadXu a x - x) * Yq j) - lna1))

/-- The final scaling factor of `gammpapprox` as the source writes it
(source line 135): `a1 * (lna1 - 1f64).exp() - gln`, i.e. the method call
`.exp()` applies to `lna1 - 1` only. -/
def quadScale (a1 lna1 gln : ℝ) : ℝ := a1 * Real.exp (lna1 - 1) - gln

/-- Modelled from the spec: the scaling factor as the specification states
it — a single closed-form exponential `exp(a1*(ln a1 - 1) - lnΓ(a))`.
Stated for comparison with `quadScale`, the factor the source computes. -/
def quadScaleSpec (a1 lna1 gln : ℝ) : ℝ := Real.exp (a1 * (lna1 - 1) - gln)

/-- The intermediate `ans` of `gammpapprox` (source line 135):
`sum * (xu - x) * (a1 * (lna1 - 1).exp() - gln)`. -/
def quadAns (a x : ℝ) : ℝ :=
  quadSum a x * (quadXu a x - x)
    * quadScale (a - 1) (Real.log (a - 1)) (ln_gamma_approx a)

/-- `gammpapprox` (source lines 119-152): the final mode/sign mapping on
`ans` (source lines 136-151). -/
def gammpapprox (a x : ℝ) (psig : IncGamma) : ℝ :=
  match psig with
  | IncGamma.P => if 0 < quadAns a x then 1 - quadAns a x else -quadAns a x
  | IncGamma.Q => if 0 ≤ quadAns a x then quadAns a x else 1 + quadAns a x

/-- The value computed by `gammp` after its `assert!` has passed
(source lines 36-47).  The Rust cast `a as usize` truncates a positive
float toward zero (saturating at the ends), which on the reals is `⌊a⌋₊`. -/
def gammpVal (a x : ℝ) : ℝ :=
  if x = 0 then 0
  else if ASWITCH ≤ ⌊a⌋₊ then gammpapprox a x IncGamma.P
  else if x < a + 1 then gser a x
  else 1 - gcf a x

/-- The value computed by `gammq` after its `assert!` has passed
(source lines 53-64). -/
def gammqVal (a x : ℝ) : ℝ :=
  if x = 0 then 1
  else if ASWITCH ≤ ⌊a⌋₊ then gammpapprox a x IncGamma.Q
  else if x < a + 1 then 1 - gser a x
  else gcf a x

/-- `gammp` (source lines 34-48).  The entry
`assert!(x >= 0f64 && a > 0f64, "Bad args in gammp")` is modelled by
`Except.error` carrying the source's message. -/
def gammp (a x : ℝ) : Except String ℝ :=
  if 0 ≤ x ∧ 0 < a then Except.ok (gammpVal a x)
  else Except.error "Bad args in gammp"

/-- `gammq` (source lines 51-65).  The source's assert message is the same
string as in `gammp` (source line 52). -/
def gammq (a x : ℝ) : Except String ℝ :=
  if 0 ≤ x ∧ 0 < a then Except.ok (gammqVal a x)
  else Except.error "Bad args in gammp"

/-- `factorial` (source lines 197-203): `p = 1; for i in 1..(n+1) { p *= i }`
on `usize`, whose multiplication wraps modulo 2⁶⁴. -/
def factorial (n : ℕ) : ℕ :=
  (List.range' 1 n).foldl (fun p i => p * i % 2 ^ 64) 1

/-- The guard of the factorial fast path of `gamma_approx`
(source lines 182-184): `z > 1` and `z - (z as usize as f64) == 0`. -/
def factorialPath (z : ℝ) : Prop := 1 < z ∧ z - (⌊z⌋₊ : ℝ) = 0

instance (z : ℝ) : Decidable (factorialPath z) := by
  unfold factorialPath; infer_instance

/-- `gamma_approx` (source lines 181-194).  The reflection branch
(`z < 0.5`) recurses at `1 - z > 0.5`, so the recursion depth is at most
one; the termination measure below records exactly that. -/
def gamma_approx (z : ℝ) : ℝ :=
  if factorialPath z then (factorial (⌊z⌋₊ - 1) : ℝ)
  else if h : z < 0.5 then π / (Real.sin (π * z) * gamma_approx (1 - z))
  else Real.exp (ln_gamma_approx z)
termination_by (if z < 0.5 then 1 else 0 : ℕ)
decreasing_by
  simp_wf
  rw [if_pos h, if_neg (by linarith : ¬(1 - z < 0.5))]
  exact Nat.zero_lt_one

/-! ### Helper lemmas -/

/-- The Lanczos accumulation of `ln_gamma_approx` written out term by term,
as a function of the unshifted argument (`z1 + i = z - 1 + i`). -/
def lanczosS (z : ℝ) : ℝ :=
  1.000000000189712 + 76.18009172948503 / z
    + -86.50532032927205 / (z + 1) + 24.01409824118972 / (z + 2)
    + -1.2317395783752254 / (z + 3) + 0.0012086577526594748 / (z + 4)
    + -0.00000539702438713199 / (z + 5)

/-- Explicit form of `ln_gamma_approx z`: the fold over `i = 1,…,6`
expanded into `lanczosS`, `base` rewritten to `z + 4.5`. -/
theorem ln_gamma_approx_explicit (z : ℝ) :
    ln_gamma_approx z =
      Real.log (Real.sqrt (2 * π)) + Real.log (lanczosS z)
        - (z + 4.5) + Real.log (z + 4.5) * (z - 0.5) := by
  have h6 : List.range' 1 6 = [1, 2, 3, 4, 5, 6] := rfl
  simp only [ln_gamma_approx, lanczosS, h6, List.foldl_cons, List.foldl_nil, LG5N7,
    List.getD, List.get?, G, Option.getD]
  norm_num
  ring_nf

/-- `factorial` computes `n! mod 2⁶⁴` (helper for the claim theorems). -/
theorem factorial_eq_mod (n : ℕ) : factorial n = n.factorial % 2 ^ 64 := by
  induction n with
  | zero => simp [factorial, Nat.factorial]
  | succ n ih =>
    unfold factorial at ih ⊢
    rw [List.range'_1_concat, List.foldl_append, List.foldl_cons, List.foldl_nil, ih,
      Nat.factorial_succ]
    rw [Nat.mul_mod, Nat.mod_mod_of_dvd _ dvd_rfl, ← Nat.mul_mod]
    ring_nf

/-! ### Claim theorems -/

/-- C7: `ln_gamma_approx z` equals
`ln(sqrt(2π)) + ln s − base + ln(base)·(z′ + 0.5)` with `z′ = z − 1`,
`base = z′ + 5.5`, and `s = c[0] + Σ_{i=1}^{6} c[i]/(z′ + i)` over the
fixed 7-entry Lanczos table `LG5N7`. -/
theorem ln_gamma_approx_formula (z : ℝ) :
    ln_gamma_approx z =
      Real.log (Real.sqrt (2 * π))
        + Real.log (LG5N7.getD 0 0 + ∑ i in Finset.Icc 1 6, LG5N7.getD i 0 / (z - 1 + i))
        - (z - 1 + 5.5) + Real.log (z - 1 + 5.5) * (z - 1 + 0.5) := by
  have hIcc : (Finset.Icc 1 6 : Finset ℕ) = {1, 2, 3, 4, 5, 6} := rfl
  rw [ln_gamma_approx_explicit, hIcc]
  norm_num [Finset.sum_insert, Finset.mem_insert, LG5N7, lanczosS]
  ring_nf

/-- C9: `factorial n` is `n!` reduced modulo 2⁶⁴ (the unguarded `usize`
multiplications wrap), and it is exactly `n!` whenever `n!` fits in the
unsigned 64-bit range; in particular `factorial 0 = 1`. -/
theorem factorial_exact_or_wrapped (n : ℕ) :
    factorial n = n.factorial % 2 ^ 64 ∧
      (n.factorial < 2 ^ 64 → factorial n = n.factorial) ∧ factorial 0 = 1 := by
  refine ⟨factorial_eq_mod n, fun h => ?_, rfl⟩
  rw [factorial_eq_mod n, Nat.mod_eq_of_lt h]

/-- C9 witness: at `n = 20` (where `20!` still fits in 64 bits) `factorial`
is exact, and `factorial 0 = 1`. -/
theorem factorial_exact_or_wrapped_witness :
    factorial 20 = Nat.factorial 20 ∧ factorial 0 = 1 :=
  ⟨(factorial_exact_or_wrapped 20).2.1 (by decide), (factorial_exact_or_wrapped 20).2.2⟩

/-- C5: for every `a > 0`, `gammp a 0` returns exactly 0 and `gammq a 0`
returns exactly 1: the `x == 0` branch returns the literal constant before
any of `gser`, `gcf`, `gammpapprox` is reached. -/
theorem gammp_gammq_at_zero (a : ℝ) (ha : 0 < a) :
    gammp a 0 = Except.ok 0 ∧ gammq a 0 = Except.ok 1 := by
  constructor
  · rw [gammp, if_pos ⟨le_refl 0, ha⟩, gammpVal, if_pos rfl]
  · rw [gammq, if_pos ⟨le_refl 0, ha⟩, gammqVal, if_pos rfl]

/-- C5 witness: concrete instance at `a = 1`. -/
theorem gammp_gammq_at_zero_witness :
    gammp 1 0 = Except.ok 0 ∧ gammq 1 0 = Except.ok 1 :=
  gammp_gammq_at_zero 1 (by norm_num)

/-- C6: for `a ≤ 0` or `x < 0` both `gammp` and `gammq` fail the entry
assertion with the source's message and never produce a value. -/
theorem gammp_gammq_bad_args (a x : ℝ) (h : a ≤ 0 ∨ x < 0) :
    gammp a x = Except.error "Bad args in gammp" ∧
      gammq a x = Except.error "Bad args in gammp" := by
  have hcond : ¬(0 ≤ x ∧ 0 < a) := by
    rintro ⟨hx, ha⟩
    rcases h with h | h
    · exact absurd ha (not_lt.2 h)
    · exact absurd hx (not_le.2 h)
  exact ⟨by rw [gammp, if_neg hcond], by rw [gammq, if_neg hcond]⟩

/-- C6 witness: concrete instance at `a = -1`, `x = 0`. -/
theorem gammp_gammq_bad_args_witness :
    gammp (-1) 0 = Except.error "Bad args in gammp" ∧
      gammq (-1) 0 = Except.error "Bad args in gammp" :=
  gammp_gammq_bad_args (-1) 0 (Or.inl (by norm_num))

/-- C8: for `z < 0.5` (the integer fast path cannot fire since it needs
`z > 1`), `gamma_approx z = π / (sin(πz) · gamma_approx (1 − z))`, and the
recursive argument satisfies `¬(1 − z < 0.5)`, so the inner call does not
recurse again: the recursion terminates after exactly one additional call.
Totality on every real input is the well-foundedness of the definition. -/
theorem gamma_approx_reflection (z : ℝ) (hz : z < 0.5) :
    gamma_approx z = π / (Real.sin (π * z) * gamma_approx (1 - z)) ∧
      ¬(1 - z < 0.5) := by
  have hnf : ¬factorialPath z := fun h => absurd h.1 (by linarith)
  constructor
  · rw [gamma_approx, if_neg hnf, dif_pos hz]
  · linarith

/-- C8 witness: concrete instance at `z = 0`. -/
theorem gamma_approx_reflection_witness :
    gamma_approx 0 = π / (Real.sin (π * 0) * gamma_approx (1 - 0)) ∧
      ¬((1 : ℝ) - 0 < 0.5) :=
  gamma_approx_reflection 0 (by norm_num)

/-- C4 counterexample: `z = 1` is a positive integer, yet the factorial
fast path of `gamma_approx` (which requires `z > 1` strictly) is not taken:
`gamma_approx 1` is computed as `exp (ln_gamma_approx 1)` by the Lanczos
branch, not by iterative multiplication. -/
theorem gamma_approx_one_lanczos_branch :
    ¬factorialPath 1 ∧ gamma_approx 1 = Real.exp (ln_gamma_approx 1) := by
  have hnf : ¬factorialPath (1 : ℝ) := fun h => absurd h.1 (by norm_num)
  exact ⟨hnf, by rw [gamma_approx, if_neg hnf, dif_neg (by norm_num : ¬((1 : ℝ) < 0.5))]⟩

/-- C4 (amended): for every integer `z ≥ 2`, `gamma_approx z` takes the
factorial fast path and returns `factorial (z − 1)`; with the previous
theorem on `factorial`, this value is exactly `(z−1)!` for `z ≤ 21`. -/
theorem gamma_approx_int_eq_factorial (n : ℕ) (hn : 2 ≤ n) :
    gamma_approx n = (factorial (n - 1) : ℝ) := by
  have hpath : factorialPath (n : ℝ) := by
    constructor
    · exact_mod_cast Nat.lt_of_lt_of_le one_lt_two hn
    · rw [Nat.floor_natCast]; exact sub_self _
  rw [gamma_approx, if_pos hpath, Nat.floor_natCast]

/-- C4 witness: `gamma_approx 5 = factorial 4`, i.e. `Γ(5) = 4! = 24`. -/
theorem gamma_approx_int_eq_factorial_witness :
    gamma_approx (5 : ℕ) = (factorial 4 : ℝ) ∧ factorial 4 = 24 :=
  ⟨gamma_approx_int_eq_factorial 5 (by norm_num), by decide⟩

/-- C1: the intermediate `ans` of `gammpapprox` is
`sum · (xu − x) · (a1·exp(ln a1 − 1) − lnΓ(a))` — the method call `.exp()`
on source line 135 applies only to `lna1 - 1` — and this scaling factor
differs from the closed-form exponential `exp(a1·(ln a1 − 1) − lnΓ(a))`
stated by the specification: at `(a1, lna1, gln) = (2, 1, 0)` the source's
factor is `2·exp 0 = 2` while the spec's is `exp 0 = 1`. -/
theorem quadAns_scale_not_closed_form :
    (∀ a x : ℝ, quadAns a x =
        quadSum a x * (quadXu a x - x)
          * ((a - 1) * Real.exp (Real.log (a - 1) - 1) - ln_gamma_approx a)) ∧
      quadScale 2 1 0 ≠ quadScaleSpec 2 1 0 := by
  constructor
  · intro a x; rfl
  · simp only [quadScale, quadScaleSpec]
    norm_num [Real.exp_zero]

/-- The source's quadrature test `(a as usize) >= ASWITCH` holds exactly
when `100 ≤ a`, for positive `a`. -/
theorem aswitch_iff (a : ℝ) (ha : 0 < a) : ASWITCH ≤ ⌊a⌋₊ ↔ (100 : ℝ) ≤ a := by
  constructor
  · intro h
    calc (100 : ℝ) = ((100 : ℕ) : ℝ) := by norm_num
    _ ≤ (⌊a⌋₊ : ℝ) := by exact_mod_cast h
    _ ≤ a := Nat.floor_le (le_of_lt ha)
  · intro h
    exact Nat.le_floor (by exact_mod_cast h)

/-- C2: for `a > 0`, `x > 0`, the dispatchers route as the table says:
`a ≥ 100` gives the quadrature results in modes P and Q; otherwise
`x < a + 1` gives `gser` and `1 − gser`; otherwise `1 − gcf` and `gcf`. -/
theorem gammp_gammq_dispatch (a x : ℝ) (ha : 0 < a) (hx : 0 < x) :
    ((100 : ℝ) ≤ a →
        gammp a x = Except.ok (gammpapprox a x IncGamma.P) ∧
          gammq a x = Except.ok (gammpapprox a x IncGamma.Q)) ∧
      (a < 100 → x < a + 1 →
        gammp a x = Except.ok (gser a x) ∧
          gammq a x = Except.ok (1 - gser a x)) ∧
      (a < 100 → a + 1 ≤ x →
        gammp a x = Except.ok (1 - gcf a x) ∧
          gammq a x = Except.ok (gcf a x)) := by
  have hok : 0 ≤ x ∧ 0 < a := ⟨le_of_lt hx, ha⟩
  have hx0 : x ≠ 0 := ne_of_gt hx
  refine ⟨fun h100 => ?_, fun h100 hxa => ?_, fun h100 hxa => ?_⟩
  · have hsw : ASWITCH ≤ ⌊a⌋₊ := (aswitch_iff a ha).2 h100
    exact ⟨by rw [gammp, if_pos hok, gammpVal, if_neg hx0, if_pos hsw],
      by rw [gammq, if_pos hok, gammqVal, if_neg hx0, if_pos hsw]⟩
  · have hsw : ¬ASWITCH ≤ ⌊a⌋₊ := fun h => absurd ((aswitch_iff a ha).1 h) (not_le.2 h100)
    exact ⟨by rw [gammp, if_pos hok, gammpVal, if_neg hx0, if_neg hsw, if_pos hxa],
      by rw [gammq, if_pos hok, gammqVal, if_neg hx0, if_neg hsw, if_pos hxa]⟩
  · have hsw : ¬ASWITCH ≤ ⌊a⌋₊ := fun h => absurd ((aswitch_iff a ha).1 h) (not_le.2 h100)
    have hxa' : ¬x < a + 1 := not_lt.2 hxa
    exact ⟨by rw [gammp, if_pos hok, gammpVal, if_neg hx0, if_neg hsw, if_neg hxa'],
      by rw [gammq, if_pos hok, gammqVal, if_neg hx0, if_neg hsw, if_neg hxa']⟩

/-- C2 witness: at `a = 1`, `x = 1` the series branch is selected
(`1 < 100` and `1 < 1 + 1`). -/
theorem gammp_gammq_dispatch_witness :
    gammp 1 1 = Except.ok (gser 1 1) ∧ gammq 1 1 = Except.ok (1 - gser 1 1) :=
  (gammp_gammq_dispatch 1 1 (by norm_num) (by norm_num)).2.1 (by norm_num) (by norm_num)

/-- Every Gauss-Legendre weight in the 18-entry table is positive. -/
theorem Wq_pos (j : ℕ) (hj : j < 18) : 0 < Wq j := by
  interval_cases j <;> norm_num [Wq, Wtable]

/-- The accumulated quadrature sum is positive: all 18 summands are
`W[j] * exp (…)` with positive weights. -/
theorem quadSum_pos (a x : ℝ) : 0 < quadSum a x := by
  rw [quadSum]
  apply Finset.sum_pos
  · intro j hj
    exact mul_pos (Wq_pos j (Finset.mem_range.1 hj)) (Real.exp_pos _)
  · exact ⟨0, Finset.mem_range.2 (by norm_num)⟩

/-- For `a ≥ 100` the Lanczos accumulation stays in `[0.12, 2]`. -/
theorem lanczosS_bounds (a : ℝ) (ha : 100 ≤ a) :
    0.12 ≤ lanczosS a ∧ lanczosS a ≤ 2 := by
  have h0 : (0 : ℝ) < a := by linarith
  have t1a : 76.18009172948503 / a ≤ 0.762 := by
    rw [div_le_iff₀ h0]; linarith
  have t1b : 0 ≤ 76.18009172948503 / a := div_nonneg (by norm_num) (le_of_lt h0)
  have t2a : 86.50532032927205 / (a + 1) ≤ 0.86 := by
    rw [div_le_iff₀ (by linarith : (0 : ℝ) < a + 1)]; linarith
  have t2b : 0 ≤ 86.50532032927205 / (a + 1) := div_nonneg (by norm_num) (by linarith)
  have t3a : 24.01409824118972 / (a + 2) ≤ 0.236 := by
    rw [div_le_iff₀ (by linarith : (0 : ℝ) < a + 2)]; linarith
  have t3b : 0 ≤ 24.01409824118972 / (a + 2) := div_nonneg (by norm_num) (by linarith)
  have t4a : 1.2317395783752254 / (a + 3) ≤ 0.012 := by
    rw [div_le_iff₀ (by linarith : (0 : ℝ) < a + 3)]; linarith
  have t4b : 0 ≤ 1.2317395783752254 / (a + 3) := div_nonneg (by norm_num) (by linarith)
  have t5a : 0.0012086577526594748 / (a + 4) ≤ 0.0000117 := by
    rw [div_le_iff₀ (by linarith : (0 : ℝ) < a + 4)]; linarith
  have t5b : 0 ≤ 0.0012086577526594748 / (a + 4) := div_nonneg (by norm_num) (by linarith)
  have t6a : 0.00000539702438713199 / (a + 5) ≤ 0.000000052 := by
    rw [div_le_iff₀ (by linarith : (0 : ℝ) < a + 5)]; linarith
  have t6b : 0 ≤ 0.00000539702438713199 / (a + 5) := div_nonneg (by norm_num) (by linarith)
  have e2 : -86.50532032927205 / (a + 1) = -(86.50532032927205 / (a + 1)) := by ring
  have e4 : -1.2317395783752254 / (a + 3) = -(1.2317395783752254 / (a + 3)) := by ring
  have e6 : -0.00000539702438713199 / (a + 5) = -(0.00000539702438713199 / (a + 5)) := by
    ring
  rw [lanczosS]
  constructor <;> rw [e2, e4, e6] <;> linarith

/-- For `a ≥ 100`, `ln (lanczosS a) ≤ 1`. -/
theorem log_lanczosS_le_one (a : ℝ) (ha : 100 ≤ a) : Real.log (lanczosS a) ≤ 1 := by
  obtain ⟨hl, hu⟩ := lanczosS_bounds a ha
  have := Real.log_le_sub_one_of_pos (show (0 : ℝ) < lanczosS a by linarith)
  linarith

/-- `ln (sqrt (2π)) ≤ 1`, since `2π < e²`. -/
theorem log_sqrt_two_pi_le_one : Real.log (Real.sqrt (2 * π)) ≤ 1 := by
  have hpi : (0 : ℝ) < 2 * π := by positivity
  rw [Real.log_sqrt (le_of_lt hpi)]
  have h2 : Real.log (2 * π) ≤ 2 := by
    rw [Real.log_le_iff_le_exp hpi]
    have he : (2.7182818283 : ℝ) < Real.exp 1 := Real.exp_one_gt_d9
    have hexp2 : Real.exp 2 = Real.exp 1 * Real.exp 1 := by
      rw [← Real.exp_add]; norm_num
    have hpil : π < 3.15 := Real.pi_lt_d2
    nlinarith
  linarith

/-- Key estimate for the quadrature regime: for `a ≥ 100` the source's
scaling factor `a1·exp(ln a1 − 1) − lnΓ(a)` is positive, because
`a1·exp(ln a1 − 1) = (a−1)²/e` dominates `ln_gamma_approx a`. -/
theorem gln_lt (a : ℝ) (ha : 100 ≤ a) :
    ln_gamma_approx a < (a - 1) * Real.exp (Real.log (a - 1) - 1) := by
  have ha1 : (0 : ℝ) < a - 1 := by linarith
  have hrw : Real.exp (Real.log (a - 1) - 1) = (a - 1) / Real.exp 1 := by
    rw [Real.exp_sub, Real.exp_log ha1]
  rw [hrw, ln_gamma_approx_explicit]
  have hEpos : (0 : ℝ) < Real.exp 1 := Real.exp_pos 1
  have hElt : Real.exp 1 < 2.7182818286 := Real.exp_one_lt_d9
  set u := Real.sqrt (a + 4.5) with hu_def
  have hub : (0 : ℝ) ≤ a + 4.5 := by linarith
  have hu2 : u ^ 2 = a + 4.5 := Real.sq_sqrt hub
  have hu0 : 0 < u := Real.sqrt_pos.2 (by linarith)
  have hu : (10.22 : ℝ) ≤ u := by nlinarith [hu2, hu0]
  have hlog_base : Real.log (a + 4.5) ≤ 2 * u - 2 := by
    have h1 : Real.log u ≤ u - 1 := Real.log_le_sub_one_of_pos hu0
    have h2 : Real.log (a + 4.5) = 2 * Real.log u := by
      rw [hu_def, Real.log_sqrt hub]; ring
    linarith
  have hmul : Real.log (a + 4.5) * (a - 0.5) ≤ (2 * u - 2) * (a - 0.5) :=
    mul_le_mul_of_nonneg_right hlog_base (by linarith)
  have hs := log_lanczosS_le_one a ha
  have hsq := log_sqrt_two_pi_le_one
  have ha_eq : a = u ^ 2 - 4.5 := by linarith [hu2]
  have hX : (2 * u - 2) * (a - 0.5) + 2 - (a + 4.5)
      = 2 * u ^ 3 - 3 * u ^ 2 - 10 * u + 12 := by
    rw [ha_eq]; ring
  have hkey : 2.7182818286 * (2 * u ^ 3 - 3 * u ^ 2 - 10 * u + 12) < (a - 1) ^ 2 := by
    rw [ha_eq]
    nlinarith [mul_nonneg (show (0 : ℝ) ≤ u - 10.22 by linarith)
        (show (0 : ℝ) ≤ u ^ 3 by positivity),
      mul_nonneg (show (0 : ℝ) ≤ u - 10.22 by linarith) (sq_nonneg u),
      mul_nonneg (show (0 : ℝ) ≤ u - 10.22 by linarith) (le_of_lt hu0)]
  have hXpos : 0 < 2 * u ^ 3 - 3 * u ^ 2 - 10 * u + 12 := by
    nlinarith [mul_nonneg (show (0 : ℝ) ≤ u - 10.22 by linarith) (sq_nonneg u),
      mul_nonneg (show (0 : ℝ) ≤ u - 10.22 by linarith) (le_of_lt hu0)]
  have hfin : (2 * u ^ 3 - 3 * u ^ 2 - 10 * u + 12) * Real.exp 1 < (a - 1) ^ 2 := by
    have h1 := mul_lt_mul_of_pos_left hElt hXpos
    have h2 : (2 * u ^ 3 - 3 * u ^ 2 - 10 * u + 12) * 2.7182818286
        = 2.7182818286 * (2 * u ^ 3 - 3 * u ^ 2 - 10 * u + 12) := mul_comm _ _
    nlinarith [hkey, h1]
  have hdiv : 2 * u ^ 3 - 3 * u ^ 2 - 10 * u + 12 < (a - 1) ^ 2 / Real.exp 1 := by
    rw [lt_div_iff₀ hEpos]; exact hfin
  have hrhs : (a - 1) * ((a - 1) / Real.exp 1) = (a - 1) ^ 2 / Real.exp 1 := by ring
  rw [hrhs]
  linarith [hmul, hs, hsq, hX, hdiv]

/-- In the quadrature regime with `x > a1` the upper bound `xu` lies
strictly above `x`. -/
theorem quadXu_gt (a x : ℝ) (ha : 100 ≤ a) (hgt : a - 1 < x) : x < quadXu a x := by
  simp only [quadXu]
  rw [if_pos hgt]
  have hs : 0 < Real.sqrt (a - 1) := Real.sqrt_pos.2 (by linarith)
  calc x < x + 6 * Real.sqrt (a - 1) := by linarith
  _ ≤ max (a - 1 + 11.5 * Real.sqrt (a - 1)) (x + 6 * Real.sqrt (a - 1)) :=
    le_max_right _ _

/-- In the quadrature regime with `0 < x ≤ a1` the bound `xu` lies strictly
below `x`. -/
theorem quadXu_lt (a x : ℝ) (ha : 100 ≤ a) (hx : 0 < x) (hle : x ≤ a - 1) :
    quadXu a x < x := by
  simp only [quadXu]
  rw [if_neg (not_lt.2 hle)]
  have hs : 0 < Real.sqrt (a - 1) := Real.sqrt_pos.2 (by linarith)
  apply max_lt hx
  calc min (a - 1 - 7.5 * Real.sqrt (a - 1)) (x - 5 * Real.sqrt (a - 1))
      ≤ x - 5 * Real.sqrt (a - 1) := min_le_right _ _
  _ < x := by linarith

/-- In the quadrature regime the P- and Q-mode results of `gammpapprox`
sum to exactly 1: the intermediate `ans` is nonzero (its three factors are
nonzero), so the sign guards of the two modes pair up. -/
theorem gammpapprox_P_add_Q (a x : ℝ) (ha : 100 ≤ a) (hx : 0 < x) :
    gammpapprox a x IncGamma.P + gammpapprox a x IncGamma.Q = 1 := by
  have hscale : 0 < quadScale (a - 1) (Real.log (a - 1)) (ln_gamma_approx a) := by
    rw [quadScale]
    have := gln_lt a ha
    linarith
  have hsum := quadSum_pos a x
  rcases lt_or_le (a - 1) x with hgt | hle
  · have hxu := quadXu_gt a x ha hgt
    have hans : 0 < quadAns a x := by
      rw [quadAns]
      exact mul_pos (mul_pos hsum (by linarith)) hscale
    simp only [gammpapprox]
    rw [if_pos hans, if_pos (le_of_lt hans)]
    ring
  · have hxu := quadXu_lt a x ha hx hle
    have hans : quadAns a x < 0 := by
      rw [quadAns]
      exact mul_neg_of_neg_of_pos (mul_neg_of_pos_of_neg hsum (by linarith)) hscale
    simp only [gammpapprox]
    rw [if_neg (not_lt.2 (le_of_lt hans)), if_neg (not_le.2 hans)]
    ring

/-- C3: for every `a > 0` and `x ≥ 0`, `gammp` and `gammq` both succeed and
their values sum to exactly 1 in the real-number model (so in particular
within a relative tolerance of 1e-12): each branch computes one member of
the pair and derives the other from `P + Q = 1`, and in the quadrature
branch the sign guards on `ans ≠ 0` pair up. -/
theorem gammp_add_gammq_eq_one (a x : ℝ) (ha : 0 < a) (hx : 0 ≤ x) :
    gammp a x = Except.ok (gammpVal a x) ∧ gammq a x = Except.ok (gammqVal a x) ∧
      gammpVal a x + gammqVal a x = 1 := by
  refine ⟨by rw [gammp, if_pos ⟨hx, ha⟩], by rw [gammq, if_pos ⟨hx, ha⟩], ?_⟩
  by_cases hx0 : x = 0
  · rw [gammpVal, gammqVal, if_pos hx0, if_pos hx0]
    norm_num
  · have hxpos : 0 < x := lt_of_le_of_ne hx (Ne.symm hx0)
    by_cases hsw : ASWITCH ≤ ⌊a⌋₊
    · have h100 : (100 : ℝ) ≤ a := (aswitch_iff a ha).1 hsw
      rw [gammpVal, gammqVal, if_neg hx0, if_neg hx0, if_pos hsw, if_pos hsw]
      exact gammpapprox_P_add_Q a x h100 hxpos
    · by_cases hxa : x < a + 1
      · rw [gammpVal, gammqVal, if_neg hx0, if_neg hx0, if_neg hsw, if_neg hsw,
          if_pos hxa, if_pos hxa]
        ring
      · rw [gammpVal, gammqVal, if_neg hx0, if_neg hx0, if_neg hsw, if_neg hsw,
          if_neg hxa, if_neg hxa]
        ring

/-- C3 witness: concrete instance at `a = 1`, `x = 0`. -/
theorem gammp_add_gammq_eq_one_witness :
    gammp 1 0 = Except.ok (gammpVal 1 0) ∧ gammq 1 0 = Except.ok (gammqVal 1 0) ∧
      gammpVal 1 0 + gammqVal 1 0 = 1 :=
  gammp_add_gammq_eq_one 1 0 (by norm_num) (by norm_num)

end

end Puruspe
